import Mathlib

/-!
Verification development for the ftm-datalake ingestion core: a shallow
embedding of the memorious import adapter (`ftm_datalake/sync/memorious.py`)
and the dataset worker (`ftm_datalake/worker.py`), together with proofs about
key derivation, cache keys, the task-handling state machine and the staging
lifecycle.
-/

namespace FtmDatalake

/-! ### Python string helpers (semantics of the stdlib calls the code uses) -/

/-- Python `s.strip("/")` (here generalized to one strip character):
remove all leading and trailing occurrences of `c`. -/
def stripChar (c : Char) (s : String) : String :=
  String.mk (((s.data.dropWhile (fun x => x == c)).reverse.dropWhile
    (fun x => x == c)).reverse)

def stripSlashes (s : String) : String := stripChar '/' s

/-- Python `pathlib.Path(p).name` for the plain paths the code handles:
the final nonempty `/`-separated segment (empty for a root or empty path). -/
def pathName (p : String) : String :=
  String.mk (((p.data.reverse.dropWhile (fun c => c == '/')).takeWhile
    (fun c => c != '/')).reverse)

/-- Python `s.startswith(p)` (char-by-char prefix test). -/
def startsWithChars : List Char → List Char → Bool
  | [], _ => true
  | _ :: _, [] => false
  | a :: as, b :: bs => a == b && startsWithChars as bs

def strStartsWith (s p : String) : Bool := startsWithChars p.data s.data

/-- Python `s[n:]` (drop the first `n` code points). -/
def strDrop (s : String) (n : Nat) : String := String.mk (s.data.drop n)

/-- Python `len(s)` in code points. -/
def strLen (s : String) : Nat := s.data.length

/-- Value of one hex digit, as `urllib.parse.unquote` accepts it. -/
def hexVal (c : Char) : Option Nat :=
  if '0' ≤ c ∧ c ≤ '9' then some (c.toNat - '0'.toNat)
  else if 'a' ≤ c ∧ c ≤ 'f' then some (c.toNat - 'a'.toNat + 10)
  else if 'A' ≤ c ∧ c ≤ 'F' then some (c.toNat - 'A'.toNat + 10)
  else none

/-- Percent-decoding of `urllib.parse.unquote`, for single-byte escapes
(the code's URLs are ASCII): every valid `%xy` becomes the character with
code `16*x + y`; an invalid escape is left untouched. -/
def unquoteChars : List Char → List Char
  | [] => []
  | '%' :: a :: b :: rest =>
    match hexVal a, hexVal b with
    | some hi, some lo => Char.ofNat (16 * hi + lo) :: unquoteChars rest
    | _, _ => '%' :: unquoteChars (a :: b :: rest)
  | c :: rest => c :: unquoteChars rest

def unquote (s : String) : String := String.mk (unquoteChars s.data)

/-! ### `urllib.parse.urlparse`: the `netloc` and `path` components -/

/-- Characters allowed in a URL scheme (`urllib.parse.scheme_chars`). -/
def schemeChar (c : Char) : Bool :=
  c.isAlpha || c.isDigit || c == '+' || c == '-' || c == '.'

/-- Drop a leading `scheme:` when the text before the first `:` is a
nonempty run of scheme characters (as `urlsplit` does). -/
def dropScheme (u : List Char) : List Char :=
  match u.findIdx? (fun c => c == ':') with
  | some i =>
    if 0 < i ∧ (u.take i).all schemeChar then u.drop (i + 1) else u
  | none => u

/-- A character ending the netloc component. -/
def netlocDelim (c : Char) : Bool := c == '/' || c == '?' || c == '#'

/-- After the scheme: `(netloc, rest)`. The netloc is present exactly when
the remainder starts with `//`, and extends to the next `/`, `?` or `#`. -/
def splitNetlocChars : List Char → List Char × List Char
  | '/' :: '/' :: rest =>
    (rest.takeWhile (fun c => !netlocDelim c), rest.dropWhile (fun c => !netlocDelim c))
  | u => ([], u)

/-- Model of `urlparse(url).netloc`. Always a string; empty for plain local paths. -/
def urlparseNetloc (url : String) : String :=
  String.mk (splitNetlocChars (dropScheme url.data)).1

/-- Model of `urlparse(url).path`: what remains after scheme and netloc, up to the
query or fragment delimiter. -/
def urlparsePath (url : String) : String :=
  String.mk ((splitNetlocChars (dropScheme url.data)).2.takeWhile
    (fun c => !(c == '?' || c == '#')))

/-! ### Metadata mappings (parsed memorious json objects) -/

/-- A raw metadata mapping; values are kept opaque as strings. -/
abbrev Metadata := List (String × String)

/-- Python `d.get(k)` / `d[k]` lookup. -/
def metaGet (d : Metadata) (k : String) : Option String :=
  (d.find? (fun kv => kv.1 == k)).map (fun kv => kv.2)

/-- Python `d.pop(k, None)`: the value (if any) together with the mapping
without key `k`. -/
def metaPop (d : Metadata) (k : String) : Option String × Metadata :=
  (metaGet d k, d.filter (fun kv => kv.1 != k))

/-! ### Key derivation policies (`sync/memorious.py`) -/

/-- The computation of `get_file_key` on the url value:
`unquote(urlparse(url).path).strip("/")`. -/
def fileKeyOfUrl (url : String) : String :=
  stripSlashes (unquote (urlparsePath url))

/-- Source `get_file_key(data)`; `none` models the `KeyError` raised when the
metadata has no `"url"` entry. -/
def get_file_key (d : Metadata) : Option String :=
  (metaGet d "url").map fileKeyOfUrl

/-- The computation of `get_file_name` on the url value:
`unquote(Path(urlparse(url).path).name)`. -/
def fileNameOfUrl (url : String) : String :=
  unquote (pathName (urlparsePath url))

/-- Source `get_file_name(data)`; `none` models the `KeyError` on a missing url. -/
def get_file_name (d : Metadata) : Option String :=
  (metaGet d "url").map fileNameOfUrl

/-- Source `get_file_name_strip_func(p)` applied to metadata: the caller-specified
prefix is first stripped of slashes; when the default key starts with it the
remainder (slash-stripped again) is used, otherwise the key is unchanged. -/
def get_file_name_strip_func (pfx : String) (d : Metadata) : Option String :=
  let p := stripSlashes pfx
  (get_file_key d).map (fun key =>
    if strStartsWith key p then stripSlashes (strDrop key (strLen p)) else key)

/-! ### Cache keys (`worker.py` `make_cache_key`, `sync/memorious.py`
`get_cache_key`) -/

/-- The archive settings fields the worker reads; `cachePfx` models the
`cache_prefix` setting (default `"ftm_datalake"`). -/
structure ArchiveSettings where
  cachePfx : String
deriving DecidableEq

/-- Python `"/".join(parts)`. -/
def joinSlash : List String → String
  | [] => ""
  | [x] => x
  | x :: xs => x ++ "/" ++ joinSlash xs

/-- Source `make_cache_key(worker, action, *extra)`:
`f"{cache_prefix}/{dataset.name}/{action}/{'/'.join(extra)}"`. -/
def make_cache_key (s : ArchiveSettings) (datasetName action : String)
    (extra : List String) : String :=
  s.cachePfx ++ "/" ++ datasetName ++ "/" ++ action ++ "/" ++ joinSlash extra

/-- Model of `urlparse(uri).netloc` as Python produces it: always a string (wrapped in
`some` to mirror the dynamic `is None` test of the dead fallback branch). -/
def urlparseNetlocOpt (url : String) : Option String := some (urlparseNetloc url)

/-- Source `get_cache_key(self, key)`: host from the memorious store uri, with the
(dead) `make_data_checksum` fallback kept as the abstract `checksum` argument;
then `make_cache_key(self, "sync", "memorious", host, key)`. -/
def get_cache_key (checksum : String → String) (s : ArchiveSettings)
    (datasetName memoriousUri key : String) : String :=
  let host : String :=
    match urlparseNetlocOpt memoriousUri with
    | none => checksum memoriousUri
    | some h => h
  make_cache_key s datasetName "sync" ["memorious", host, key]

/-! ### The data model: File Records and the dataset archive -/

/-- A File Record (`ftm_datalake.model.File` as `load_memorious` builds it). -/
structure File where
  key : String
  name : String
  size : Nat
  content_hash : String
  store : String
  dataset : String
  extra : Metadata
deriving DecidableEq

/-- Modelled from the spec: the Dataset Archive
(`ftm_datalake.archive.DatasetArchive`, not under `src/`): the File Records of
one named dataset; `existsKey` models `dataset.exists(key)`, `archiveFile`
models `dataset.archive_file(file, from_uri)` registering the record. -/
structure DatasetState where
  name : String
  records : List File
deriving DecidableEq

def DatasetState.existsKey (ds : DatasetState) (k : String) : Bool :=
  ds.records.any (fun f => f.key == k)

def DatasetState.archiveFile (ds : DatasetState) (f : File) : DatasetState :=
  { ds with records := ds.records ++ [f] }

/-- The `info(key)` result of the object store (the fields the code reads). -/
structure StoreInfo where
  size : Nat
deriving DecidableEq

/-- The external memorious object store (an `anystore` store): task listing,
metadata fetch and payload info; `none` models a raised error / missing
object. -/
structure MemoriousStore where
  uri : String
  tasks : List String
  get : String → Option Metadata
  info : String → Option StoreInfo

/-- Source `MemoriousStatus`: the per-run counters. -/
structure MemoriousStatus where
  added : Nat := 0
  skipped : Nat := 0
  not_found : Nat := 0
deriving DecidableEq

/-! ### `MemoriousWorker.load_memorious` and `handle_task` -/

/-- Source `load_memorious(key)`: pop the content hash, require a payload reference,
derive the key, read the payload info and build the File Record. The result is
`(Option File, counters)`: `(none, _)` is the logged + counted not-found path.
The outer `none` models a raised exception (store read failure, `KeyError`
from the key function, or missing payload info). -/
def load_memorious (store : MemoriousStore) (datasetName : String)
    (keyFunc : Metadata → Option String) (task : String) (st : MemoriousStatus) :
    Option (Option File × MemoriousStatus) :=
  match store.get task with
  | none => none
  | some data0 =>
    match (metaPop data0 "content_hash").1 with
    | none => some (none, { st with not_found := st.not_found + 1 })
    | some contentHash =>
      let data := (metaPop data0 "content_hash").2
      match metaGet data "_file_name" with
      | none => some (none, { st with not_found := st.not_found + 1 })
      | some fname =>
        match keyFunc data with
        | none => none
        | some key =>
          match store.info fname with
          | none => none
          | some info =>
            some (some {
              key := stripSlashes key
              name := pathName key
              size := info.size
              content_hash := contentHash
              store := store.uri
              dataset := datasetName
              extra := data }, st)

/-- The body of `handle_task(task)` (without the `anycache` layer): load the
metadata; when a File Record results, either skip an existing key or pop
`_file_name` from `extra` (to resolve the payload uri) and register the
record. `none` models a raised exception. -/
def handle_task_body (store : MemoriousStore) (keyFunc : Metadata → Option String)
    (ds : DatasetState) (st : MemoriousStatus) (task : String) :
    Option (DatasetState × MemoriousStatus) :=
  match load_memorious store ds.name keyFunc task st with
  | none => none
  | some (none, st1) => some (ds, st1)
  | some (some file, st1) =>
    if ds.existsKey file.key then
      some (ds, { st1 with skipped := st1.skipped + 1 })
    else
      some (ds.archiveFile { file with extra := (metaPop file.extra "_file_name").2 },
        { st1 with added := st1.added + 1 })

/-! ### The worker run with the memoization cache -/

/-- The run state of one import: the dataset archive, the per-run counters and
the persistent memoization cache (the set of cache keys holding a stored
value). -/
structure RunState where
  ds : DatasetState
  st : MemoriousStatus
  cache : List String
deriving DecidableEq

/-- Modelled from the spec: one task under `@anycache` (the persistent
Memoization Cache collaborator, `get_cache` not being under `src/`): consult
the cache at the task's cache key; on a hit skip the body and reuse the stored
value; on a successful body store the key; a raised body is swallowed
(continue-on-error) and nothing is stored. -/
def runTask (checksum : String → String) (s : ArchiveSettings)
    (store : MemoriousStore) (keyFunc : Metadata → Option String)
    (rs : RunState) (task : String) : RunState :=
  let ck := get_cache_key checksum s rs.ds.name store.uri task
  if ck ∈ rs.cache then rs
  else
    match handle_task_body store keyFunc rs.ds rs.st task with
    | none => rs
    | some (ds1, st1) => { ds := ds1, st := st1, cache := ck :: rs.cache }

def runTasks (checksum : String → String) (s : ArchiveSettings)
    (store : MemoriousStore) (keyFunc : Metadata → Option String) :
    List String → RunState → RunState
  | [], rs => rs
  | t :: ts, rs => runTasks checksum s store keyFunc ts
      (runTask checksum s store keyFunc rs t)

/-- One worker run over the store's task listing: the per-run status starts at
zero; the dataset archive and the memoization cache are carried in. -/
def runAll (checksum : String → String) (s : ArchiveSettings)
    (store : MemoriousStore) (keyFunc : Metadata → Option String)
    (ds : DatasetState) (cache : List String) : RunState :=
  runTasks checksum s store keyFunc store.tasks { ds := ds, st := {}, cache := cache }

/-! ### Process settings and `DatasetWorker.exception` (`worker.py`) -/

/-- The process settings field the worker reads: strict/debug mode. -/
structure Settings where
  debug : Bool
deriving DecidableEq

/-- An exception value as the handler sees it: class name and message. -/
structure PyException where
  clsName : String
  message : String
deriving DecidableEq

/-- A structured log entry as `log_error` emits it: message plus the dataset,
storage and task context. -/
structure LogEntry where
  message : String
  dataset : String
  storage : String
  task : String
deriving DecidableEq

/-- Source `DatasetWorker.exception(task, e)`: `log_error` with the task
context, then `raise e` exactly when `settings.debug`. The result collects the
emitted log entries and the re-raised exception, if any. -/
def DatasetWorker.exception (settings : Settings) (datasetName storageUri : String)
    (task : String) (e : PyException) : List LogEntry × Option PyException :=
  ([{ message := "Error while handling task: " ++ e.clsName ++ ": " ++ e.message,
      dataset := datasetName, storage := storageUri, task := task }],
   if settings.debug then some e else none)

/-! ### `DatasetWorker.local_file` staging (`worker.py`) -/

/-- How the `with`-scope around the yielded File is left. -/
inductive ExitKind
  | success
  | raised
  | earlyReturn
deriving DecidableEq

/-- What one `local_file` use did: whether a temporary materialization was
created, whether the `finally` clause released it, and which location the File
Record was built from. -/
structure StagingOutcome where
  tmpCreated : Bool
  cleanedUp : Bool
  fileUri : String
deriving DecidableEq

/-- Source `DatasetWorker.local_file(uri, store)`: for a local store the File
is built from the original uri and no temporary is created; for a remote store
the bytes are downloaded to a temporary location first. The `finally` clause
(`if tmp is not None: tmp.cleanup()`) runs on every way the scope exits. -/
def local_file (storeIsLocal : Bool) (uri downloadedUri : String)
    (exit : ExitKind) : StagingOutcome :=
  let tmpCreated := !storeIsLocal
  let fileUri := if storeIsLocal then uri else downloadedUri
  { tmpCreated := tmpCreated,
    cleanedUp := match exit with
      | .success => tmpCreated
      | .raised => tmpCreated
      | .earlyReturn => tmpCreated,
    fileUri := fileUri }

/-! ### Claims C3, C4: key derivation policies -/

/-- C3: the default key policy maps metadata carrying a source URL to the
URL's path, percent-decoded, with leading and trailing slashes stripped, and
the name-only policy to the final path segment; concretely, for
`{"url": "https://x/a/b%20c.txt"}` they yield `a/b c.txt` and `b c.txt`. -/
theorem claim_C3_key_policies :
    (∀ (d : Metadata) (u : String), metaGet d "url" = some u →
      get_file_key d = some (stripSlashes (unquote (urlparsePath u))) ∧
      get_file_name d = some (unquote (pathName (urlparsePath u)))) ∧
    get_file_key [("url", "https://x/a/b%20c.txt")] = some "a/b c.txt" ∧
    get_file_name [("url", "https://x/a/b%20c.txt")] = some "b c.txt" := by
  refine ⟨fun d u h => ?_, by decide, by decide⟩
  simp [get_file_key, get_file_name, h, fileKeyOfUrl, fileNameOfUrl]

theorem claim_C3_key_policies_witness :
    get_file_key [("url", "https://x/a/b%20c.txt")] =
      some (stripSlashes (unquote (urlparsePath "https://x/a/b%20c.txt"))) ∧
    get_file_name [("url", "https://x/a/b%20c.txt")] =
      some (unquote (pathName (urlparsePath "https://x/a/b%20c.txt"))) :=
  claim_C3_key_policies.1 [("url", "https://x/a/b%20c.txt")]
    "https://x/a/b%20c.txt" (by decide)

/-- C4 fails as stated: with caller prefix `a` and url `https://x/a/b.txt` the
default key `a/b.txt` starts with `a`, but the code yields `b.txt`, not the
claim's plain removal `/b.txt` (the code additionally strips slashes from the
remainder). -/
theorem claim_C4_counterexample :
    get_file_key [("url", "https://x/a/b.txt")] = some "a/b.txt" ∧
    strStartsWith "a/b.txt" "a" = true ∧
    get_file_name_strip_func "a" [("url", "https://x/a/b.txt")] = some "b.txt" ∧
    ((get_file_name_strip_func "a" [("url", "https://x/a/b.txt")] ==
        some (strDrop "a/b.txt" (strLen "a"))) = false) := by decide

/-- C4 (amended): the strip-prefix policy first strips leading/trailing
slashes from the caller-specified prefix; when the default policy's key starts
with the stripped prefix it yields the remainder after removing it, again with
leading/trailing slashes stripped; otherwise the default key unchanged.
Concretely strip-prefix(`a`) on `{"url": "https://x/a/b%20c.txt"}` yields
`b c.txt`. -/
theorem claim_C4_strip_policy :
    (∀ (p : String) (d : Metadata) (u : String), metaGet d "url" = some u →
      get_file_name_strip_func p d =
        some (if strStartsWith (fileKeyOfUrl u) (stripSlashes p)
              then stripSlashes (strDrop (fileKeyOfUrl u) (strLen (stripSlashes p)))
              else fileKeyOfUrl u)) ∧
    get_file_name_strip_func "a" [("url", "https://x/a/b%20c.txt")] =
      some "b c.txt" := by
  refine ⟨fun p d u h => ?_, by decide⟩
  simp [get_file_name_strip_func, get_file_key, h]

theorem claim_C4_strip_policy_witness :
    get_file_name_strip_func "/a/" [("url", "https://x/a/b%20c.txt")] =
      some (if strStartsWith (fileKeyOfUrl "https://x/a/b%20c.txt")
              (stripSlashes "/a/")
            then stripSlashes (strDrop (fileKeyOfUrl "https://x/a/b%20c.txt")
              (strLen (stripSlashes "/a/")))
            else fileKeyOfUrl "https://x/a/b%20c.txt") :=
  claim_C4_strip_policy.1 "/a/" [("url", "https://x/a/b%20c.txt")]
    "https://x/a/b%20c.txt" (by decide)

/-! ### Claims C9, C10: cache keys -/

/-- C9: the cache key is a deterministic pure function of the cache namespace,
dataset name, action name, source host discriminator and task identifier:
identical inputs yield identical strings in any two invocations (also across
runs, whatever the checksum closure is), and the key is exactly the
`/`-joined composition of those inputs. -/
theorem claim_C9_cache_key_deterministic :
    (∀ (s1 s2 : ArchiveSettings) (n1 n2 a1 a2 : String) (e1 e2 : List String),
      s1.cachePfx = s2.cachePfx → n1 = n2 → a1 = a2 → e1 = e2 →
      make_cache_key s1 n1 a1 e1 = make_cache_key s2 n2 a2 e2) ∧
    (∀ (c1 c2 : String → String) (s1 s2 : ArchiveSettings)
        (n1 n2 u1 u2 k1 k2 : String),
      s1.cachePfx = s2.cachePfx → n1 = n2 →
      urlparseNetloc u1 = urlparseNetloc u2 → k1 = k2 →
      get_cache_key c1 s1 n1 u1 k1 = get_cache_key c2 s2 n2 u2 k2) ∧
    (∀ (c : String → String) (s : ArchiveSettings) (n u k : String),
      get_cache_key c s n u k =
        make_cache_key s n "sync" ["memorious", urlparseNetloc u, k]) := by
  refine ⟨?_, ?_, ?_⟩
  · intro s1 s2 n1 n2 a1 a2 e1 e2 hs hn ha he
    subst hn; subst ha; subst he
    simp [make_cache_key, hs]
  · intro c1 c2 s1 s2 n1 n2 u1 u2 k1 k2 hs hn hu hk
    subst hn; subst hk
    simp [get_cache_key, urlparseNetlocOpt, make_cache_key, hs, hu]
  · intro c s n u k
    simp [get_cache_key, urlparseNetlocOpt]

theorem claim_C9_cache_key_deterministic_witness :
    get_cache_key (fun u => u) { cachePfx := "ftm_datalake" } "ds"
        "https://host/store" "t.json" =
      get_cache_key (fun u => u ++ u) { cachePfx := "ftm_datalake" } "ds"
        "https://host/store" "t.json" :=
  claim_C9_cache_key_deterministic.2.1 (fun u => u) (fun u => u ++ u)
    { cachePfx := "ftm_datalake" } { cachePfx := "ftm_datalake" }
    "ds" "ds" "https://host/store" "https://host/store" "t.json" "t.json"
    rfl rfl rfl rfl

/-- C10: the checksum fallback branch of `get_cache_key` is unreachable: the
parsed network location is always a string (empty for plain local paths),
never the absent value the branch tests for; hence the key never depends on
the checksum function, and a memorious store addressed by a local path gets an
empty source-discriminator segment. -/
theorem claim_C10_dead_checksum_branch :
    (∀ u : String, urlparseNetlocOpt u = some (urlparseNetloc u)) ∧
    (∀ (c1 c2 : String → String) (s : ArchiveSettings) (n u k : String),
      get_cache_key c1 s n u k = get_cache_key c2 s n u k) ∧
    urlparseNetloc "/data/store/test_dataset" = "" ∧
    (∀ (c : String → String) (s : ArchiveSettings) (k : String),
      get_cache_key c s "ds" "/data/store/test_dataset" k =
        make_cache_key s "ds" "sync" ["memorious", "", k]) := by
  have hloc : urlparseNetloc "/data/store/test_dataset" = "" := by decide
  refine ⟨fun u => rfl, ?_, hloc, ?_⟩
  · intro c1 c2 s n u k
    simp [get_cache_key, urlparseNetlocOpt]
  · intro c s k
    simp [get_cache_key, urlparseNetlocOpt, hloc]

/-! ### Claim C7: the exception policy -/

/-- C7: when a task body raises, `exception` logs the failure with the task
context; the same exception is re-raised exactly when strict/debug mode is
active, and swallowed (for that task only) otherwise. -/
theorem claim_C7_exception_policy (settings : Settings)
    (datasetName storageUri task : String) (e : PyException) :
    (DatasetWorker.exception settings datasetName storageUri task e).1 =
      [{ message := "Error while handling task: " ++ e.clsName ++ ": " ++ e.message,
         dataset := datasetName, storage := storageUri, task := task }] ∧
    ((DatasetWorker.exception settings datasetName storageUri task e).2 = some e
      ↔ settings.debug = true) ∧
    ((DatasetWorker.exception settings datasetName storageUri task e).2 = none
      ↔ settings.debug = false) := by
  obtain ⟨debug⟩ := settings
  cases debug <;> simp [DatasetWorker.exception]

/-! ### Claim C8: staging cleanup -/

/-- C8: on every exit path of the `local_file` scope — success, error raised
inside the scope, early return — a temporary materialization created for a
remote source is released; and for a local backing store no temporary is
created and the File Record is built from the original location. -/
theorem claim_C8_staging_cleanup (storeIsLocal : Bool) (uri dl : String)
    (exit : ExitKind) :
    ((local_file storeIsLocal uri dl exit).tmpCreated = true →
      (local_file storeIsLocal uri dl exit).cleanedUp = true) ∧
    (storeIsLocal = true →
      (local_file storeIsLocal uri dl exit).tmpCreated = false ∧
      (local_file storeIsLocal uri dl exit).fileUri = uri) ∧
    (storeIsLocal = false →
      (local_file storeIsLocal uri dl exit).tmpCreated = true ∧
      (local_file storeIsLocal uri dl exit).cleanedUp = true ∧
      (local_file storeIsLocal uri dl exit).fileUri = dl) := by
  cases storeIsLocal <;> cases exit <;> simp [local_file]

theorem claim_C8_staging_cleanup_witness :
    (local_file false "s3://bucket/f" "/tmp/f" ExitKind.raised).cleanedUp = true ∧
    (local_file true "/data/f" "/tmp/f" ExitKind.success).tmpCreated = false ∧
    (local_file true "/data/f" "/tmp/f" ExitKind.success).fileUri = "/data/f" :=
  ⟨((claim_C8_staging_cleanup false "s3://bucket/f" "/tmp/f" ExitKind.raised).2.2
      rfl).2.1,
   ((claim_C8_staging_cleanup true "/data/f" "/tmp/f" ExitKind.success).2.1
      rfl).1,
   ((claim_C8_staging_cleanup true "/data/f" "/tmp/f" ExitKind.success).2.1
      rfl).2⟩

/-! ### Concrete fixtures for witnesses and counterexamples -/

/-- A raw memorious metadata object with checksum and payload reference. -/
def exMetaFull : Metadata :=
  [("content_hash", "2aae6c35c94fcfb415dbe95f408b9ce91ee846ed"),
   ("_file_name", "f.data"),
   ("url", "https://x/a.txt")]

/-- A raw metadata object lacking the content checksum. -/
def exMetaNoHash : Metadata :=
  [("_file_name", "f.data"), ("url", "https://x/a.txt")]

/-- A memorious store with a single task whose metadata is complete. -/
def exStore : MemoriousStore :=
  { uri := "https://host/store",
    tasks := ["t.json"],
    get := fun t => if t == "t.json" then some exMetaFull else none,
    info := fun f => if f == "f.data" then some { size := 3 } else none }

/-- The same store but with the checksum missing from the metadata. -/
def exStoreNoHash : MemoriousStore :=
  { exStore with
    get := fun t => if t == "t.json" then some exMetaNoHash else none }

/-- An empty dataset. -/
def exDs : DatasetState := { name := "ds", records := [] }

/-- A File Record occupying key `a.txt`. -/
def exFileRec : File :=
  { key := "a.txt", name := "a.txt", size := 3, content_hash := "h",
    store := "s", dataset := "ds", extra := [] }

/-- A dataset already holding key `a.txt`. -/
def exDsWith : DatasetState := { name := "ds", records := [exFileRec] }

def exArchiveSettings : ArchiveSettings := { cachePfx := "ftm_datalake" }

/-! ### Basic mapping lemma -/

/-- Filtering out the entries of one key leaves searches for a different key
unchanged. -/
theorem find?_filter_ne_key (l : List (String × String)) (k kp : String)
    (h : k ≠ kp) :
    (l.filter (fun kv => kv.1 != kp)).find? (fun kv => kv.1 == k) =
      l.find? (fun kv => kv.1 == k) := by
  induction l with
  | nil => rfl
  | cons kv rest ih =>
    rw [List.filter_cons]
    by_cases h1 : kv.1 = kp
    · have hneg : ¬ ((fun kv : String × String => kv.1 == k) kv = true) := by
        simp [h1, Ne.symm h]
      rw [if_neg (by simp [h1]),
        @List.find?_cons_of_neg _ (fun kv : String × String => kv.1 == k) kv
          rest hneg, ih]
    · by_cases h2 : kv.1 = k
      · rw [if_pos (by simp [h1]),
          @List.find?_cons_of_pos _ (fun kv : String × String => kv.1 == k) kv
            (rest.filter (fun kv => kv.1 != kp)) (by simp [h2]),
          @List.find?_cons_of_pos _ (fun kv : String × String => kv.1 == k) kv
            rest (by simp [h2])]
      · rw [if_pos (by simp [h1]),
          @List.find?_cons_of_neg _ (fun kv : String × String => kv.1 == k) kv
            (rest.filter (fun kv => kv.1 != kp)) (by simp [h2]),
          @List.find?_cons_of_neg _ (fun kv : String × String => kv.1 == k) kv
            rest (by simp [h2]), ih]

/-- Popping one key leaves lookups of a different key unchanged. -/
theorem metaGet_pop_ne (d : Metadata) (k kp : String) (h : k ≠ kp) :
    metaGet (metaPop d kp).2 k = metaGet d k := by
  simp only [metaPop, metaGet]
  rw [find?_filter_ne_key _ _ _ h]

/-! ### Claim C5: not-found handling -/

/-- C5: a metadata object lacking a content checksum or a reference to its
paired payload object makes `handle_task` count not_found once, register
nothing and produce no File Record (the dataset is returned unchanged). -/
theorem claim_C5_not_found (store : MemoriousStore)
    (keyFunc : Metadata → Option String) (ds : DatasetState)
    (st : MemoriousStatus) (task : String) (data : Metadata)
    (hget : store.get task = some data)
    (hmiss : metaGet data "content_hash" = none ∨
      metaGet data "_file_name" = none) :
    handle_task_body store keyFunc ds st task =
      some (ds, { st with not_found := st.not_found + 1 }) := by
  rcases hmiss with hch | hfn
  · simp [handle_task_body, load_memorious, hget, metaPop, hch]
  · cases hch : metaGet data "content_hash" with
    | none => simp [handle_task_body, load_memorious, hget, metaPop, hch]
    | some ch =>
      have hfn2 : metaGet (metaPop data "content_hash").2 "_file_name" = none := by
        rw [metaGet_pop_ne _ _ _ (by decide)]; exact hfn
      simp only [metaPop] at hfn2
      simp [handle_task_body, load_memorious, hget, metaPop, hch, hfn2]

theorem claim_C5_not_found_witness :
    handle_task_body exStoreNoHash get_file_key exDs {} "t.json" =
      some (exDs, { added := 0, skipped := 0, not_found := 1 }) :=
  claim_C5_not_found exStoreNoHash get_file_key exDs {} "t.json" exMetaNoHash
    (by decide) (Or.inl (by decide))

/-! ### Claim C6: skipping existing keys -/

/-- C6: a task whose derived key already exists in the dataset increments
skipped by one and leaves the File Records unchanged (no `archive_file`);
existence of the key is the only check — the conclusion holds for every
payload info `i`, so the payload is never compared. -/
theorem claim_C6_skip_existing (store : MemoriousStore)
    (keyFunc : Metadata → Option String) (ds : DatasetState)
    (st : MemoriousStatus) (task : String) (data : Metadata)
    (ch fname key : String) (i : StoreInfo)
    (hget : store.get task = some data)
    (hch : metaGet data "content_hash" = some ch)
    (hfn : metaGet (metaPop data "content_hash").2 "_file_name" = some fname)
    (hkey : keyFunc (metaPop data "content_hash").2 = some key)
    (hinfo : store.info fname = some i)
    (hex : ds.existsKey (stripSlashes key) = true) :
    handle_task_body store keyFunc ds st task =
      some (ds, { st with skipped := st.skipped + 1 }) := by
  simp only [metaPop] at hfn hkey
  simp [handle_task_body, load_memorious, hget, metaPop, hch, hfn, hkey,
    hinfo, hex]

theorem claim_C6_skip_existing_witness :
    handle_task_body exStore get_file_key exDsWith {} "t.json" =
      some (exDsWith, { added := 0, skipped := 1, not_found := 0 }) :=
  claim_C6_skip_existing exStore get_file_key exDsWith {} "t.json" exMetaFull
    "2aae6c35c94fcfb415dbe95f408b9ce91ee846ed" "f.data" "a.txt" { size := 3 }
    (by decide) (by decide) (by decide) (by decide) (by decide) (by decide)

/-! ### Claim C2: the registered extra field -/

/-- C2 fails as stated: registering the single complete task stores a File
Record whose extra is only the `url` entry — not the full raw metadata
mapping, which also held `content_hash` and `_file_name`. -/
theorem claim_C2_counterexample :
    (handle_task_body exStore get_file_key exDs {} "t.json").map
        (fun p => p.1.records.map (fun f => f.extra)) =
      some [[("url", "https://x/a.txt")]] ∧
    ((([("url", "https://x/a.txt")] : Metadata) == exMetaFull) = false) := by
  decide

/-- C2 (amended): when a task is registered, the File Record's extra equals
the raw metadata mapping with the `content_hash` entry removed (popped in
`load_memorious`) and the `_file_name` entry removed (popped in `handle_task`
to resolve the payload location before `archive_file`). -/
theorem claim_C2_extra_field (store : MemoriousStore)
    (keyFunc : Metadata → Option String) (ds : DatasetState)
    (st : MemoriousStatus) (task : String) (data : Metadata)
    (ch fname key : String) (i : StoreInfo)
    (hget : store.get task = some data)
    (hch : metaGet data "content_hash" = some ch)
    (hfn : metaGet (metaPop data "content_hash").2 "_file_name" = some fname)
    (hkey : keyFunc (metaPop data "content_hash").2 = some key)
    (hinfo : store.info fname = some i)
    (hex : ds.existsKey (stripSlashes key) = false) :
    handle_task_body store keyFunc ds st task =
      some (ds.archiveFile
        { key := stripSlashes key, name := pathName key, size := i.size,
          content_hash := ch, store := store.uri, dataset := ds.name,
          extra := (metaPop (metaPop data "content_hash").2 "_file_name").2 },
        { st with added := st.added + 1 }) := by
  simp only [metaPop] at hfn hkey
  simp [handle_task_body, load_memorious, hget, metaPop, hch, hfn, hkey,
    hinfo, hex]

theorem claim_C2_extra_field_witness :
    handle_task_body exStore get_file_key exDs {} "t.json" =
      some (exDs.archiveFile
        { key := "a.txt", name := "a.txt", size := 3,
          content_hash := "2aae6c35c94fcfb415dbe95f408b9ce91ee846ed",
          store := "https://host/store", dataset := "ds",
          extra := [("url", "https://x/a.txt")] },
        { added := 1, skipped := 0, not_found := 0 }) :=
  claim_C2_extra_field exStore get_file_key exDs {} "t.json" exMetaFull
    "2aae6c35c94fcfb415dbe95f408b9ce91ee846ed" "f.data" "a.txt" { size := 3 }
    (by decide) (by decide) (by decide) (by decide) (by decide) (by decide)

/-! ### Claim C1: idempotency of a second run

The outcome of one task body depends on the dataset only through the
existence check of the derived key: the following classification of a task is
a pure function of the store and the key function. -/

/-- What a task is, independently of dataset and counters: its body raises, it
is a not-found metadata object, or it yields a File Record with the given
(stripped) key. -/
inductive TaskClass
  | raised
  | notFound
  | fileKey (k : String)
deriving DecidableEq

/-- Classify a task from the store contents and key function alone. -/
def taskClass (store : MemoriousStore) (keyFunc : Metadata → Option String)
    (task : String) : TaskClass :=
  match store.get task with
  | none => .raised
  | some data0 =>
    match (metaPop data0 "content_hash").1 with
    | none => .notFound
    | some _ =>
      match metaGet (metaPop data0 "content_hash").2 "_file_name" with
      | none => .notFound
      | some fname =>
        match keyFunc (metaPop data0 "content_hash").2 with
        | none => .raised
        | some key =>
          match store.info fname with
          | none => .raised
          | some _ => .fileKey (stripSlashes key)

/-- The task-body trichotomy: the body raises exactly on `raised` tasks,
counts not-found on `notFound` tasks, and on `fileKey k` tasks either skips
(key exists) or archives one record with key `k`. -/
theorem handle_task_body_spec (store : MemoriousStore)
    (kf : Metadata → Option String) (ds : DatasetState) (st : MemoriousStatus)
    (t : String) :
    (taskClass store kf t = .raised ∧ handle_task_body store kf ds st t = none) ∨
    (taskClass store kf t = .notFound ∧
      handle_task_body store kf ds st t =
        some (ds, { st with not_found := st.not_found + 1 })) ∨
    (∃ k, taskClass store kf t = .fileKey k ∧
      ((ds.existsKey k = true ∧
        handle_task_body store kf ds st t =
          some (ds, { st with skipped := st.skipped + 1 })) ∨
      (ds.existsKey k = false ∧
        ∃ f : File, f.key = k ∧
          handle_task_body store kf ds st t =
            some (ds.archiveFile f, { st with added := st.added + 1 })))) := by
  cases hget : store.get t with
  | none =>
    exact Or.inl ⟨by simp [taskClass, hget],
      by simp [handle_task_body, load_memorious, hget]⟩
  | some data0 =>
    cases hch : (metaPop data0 "content_hash").1 with
    | none =>
      exact Or.inr (Or.inl ⟨by simp [taskClass, hget, hch],
        by simp [handle_task_body, load_memorious, hget, hch]⟩)
    | some ch =>
      cases hfn : metaGet (metaPop data0 "content_hash").2 "_file_name" with
      | none =>
        exact Or.inr (Or.inl ⟨by simp [taskClass, hget, hch, hfn],
          by simp [handle_task_body, load_memorious, hget, hch, hfn]⟩)
      | some fname =>
        cases hkey : kf (metaPop data0 "content_hash").2 with
        | none =>
          exact Or.inl ⟨by simp [taskClass, hget, hch, hfn, hkey],
            by simp [handle_task_body, load_memorious, hget, hch, hfn, hkey]⟩
        | some key =>
          cases hinfo : store.info fname with
          | none =>
            exact Or.inl ⟨by simp [taskClass, hget, hch, hfn, hkey, hinfo],
              by simp [handle_task_body, load_memorious, hget, hch, hfn, hkey,
                hinfo]⟩
          | some i =>
            refine Or.inr (Or.inr ⟨stripSlashes key,
              by simp [taskClass, hget, hch, hfn, hkey, hinfo], ?_⟩)
            cases hex : ds.existsKey (stripSlashes key) with
            | true =>
              exact Or.inl ⟨rfl, by simp [handle_task_body, load_memorious,
                hget, hch, hfn, hkey, hinfo, hex]⟩
            | false =>
              exact Or.inr ⟨rfl,
                ⟨{ key := stripSlashes key, name := pathName key,
                   size := i.size, content_hash := ch, store := store.uri,
                   dataset := ds.name,
                   extra := (metaPop (metaPop data0 "content_hash").2
                     "_file_name").2 },
                 rfl,
                 by simp [handle_task_body, load_memorious, hget, hch, hfn,
                   hkey, hinfo, hex]⟩⟩

/-- On `raised` tasks the body raises, whatever the dataset and counters. -/
theorem handle_task_body_of_raised (store : MemoriousStore)
    (kf : Metadata → Option String) (ds : DatasetState) (st : MemoriousStatus)
    (t : String) (h : taskClass store kf t = .raised) :
    handle_task_body store kf ds st t = none := by
  rcases handle_task_body_spec store kf ds st t with ⟨_, hb⟩ | ⟨hc, _⟩ |
    ⟨k, hc, _⟩
  · exact hb
  · rw [h] at hc; cases hc
  · rw [h] at hc; cases hc

/-- A raising body comes only from a `raised` task. -/
theorem taskClass_of_body_none (store : MemoriousStore)
    (kf : Metadata → Option String) (ds : DatasetState) (st : MemoriousStatus)
    (t : String) (h : handle_task_body store kf ds st t = none) :
    taskClass store kf t = .raised := by
  rcases handle_task_body_spec store kf ds st t with ⟨hc, _⟩ | ⟨_, hb⟩ |
    ⟨k, _, ⟨_, hb⟩ | ⟨_, _, _, hb⟩⟩
  · exact hc
  · rw [h] at hb; cases hb
  · rw [h] at hb; cases hb
  · rw [h] at hb; cases hb

/-- A successful body preserves the dataset name. -/
theorem handle_task_body_name (store : MemoriousStore)
    (kf : Metadata → Option String) (ds ds1 : DatasetState)
    (st st1 : MemoriousStatus) (t : String)
    (h : handle_task_body store kf ds st t = some (ds1, st1)) :
    ds1.name = ds.name := by
  rcases handle_task_body_spec store kf ds st t with ⟨_, hb⟩ | ⟨_, hb⟩ |
    ⟨k, _, ⟨_, hb⟩ | ⟨_, f, _, hb⟩⟩ <;> rw [hb] at h
  · cases h
  · cases h; rfl
  · cases h; rfl
  · cases h; rfl

/-- Registering a record only grows the key set. -/
theorem existsKey_archiveFile (ds : DatasetState) (f : File) (k : String) :
    (ds.archiveFile f).existsKey k = (ds.existsKey k || (f.key == k)) := by
  simp [DatasetState.existsKey, DatasetState.archiveFile]

/-- A successful body preserves every existing key. -/
theorem handle_task_body_keys_mono (store : MemoriousStore)
    (kf : Metadata → Option String) (ds ds1 : DatasetState)
    (st st1 : MemoriousStatus) (t k : String)
    (h : handle_task_body store kf ds st t = some (ds1, st1))
    (hk : ds.existsKey k = true) : ds1.existsKey k = true := by
  rcases handle_task_body_spec store kf ds st t with ⟨_, hb⟩ | ⟨_, hb⟩ |
    ⟨k2, _, ⟨_, hb⟩ | ⟨_, f, _, hb⟩⟩ <;> rw [hb] at h
  · cases h
  · cases h; exact hk
  · cases h; exact hk
  · cases h; rw [existsKey_archiveFile, hk]; rfl

/-! Cache keys determine the task: the key ends in the task identifier. -/

theorem string_data_inj {a b : String} (h : a.data = b.data) : a = b := by
  cases a; cases b; exact congrArg String.mk h

theorem get_cache_key_inj (c : String → String) (s : ArchiveSettings)
    (n u : String) {t1 t2 : String}
    (h : get_cache_key c s n u t1 = get_cache_key c s n u t2) : t1 = t2 := by
  have h2 := congrArg String.data h
  simp [get_cache_key, urlparseNetlocOpt, make_cache_key, joinSlash,
    String.data_append, List.append_assoc] at h2
  exact string_data_inj h2

/-! One cached task step: hit, raising miss, successful miss. -/

theorem runTask_of_hit (c : String → String) (s : ArchiveSettings)
    (store : MemoriousStore) (kf : Metadata → Option String) (rs : RunState)
    (t : String) (h : get_cache_key c s rs.ds.name store.uri t ∈ rs.cache) :
    runTask c s store kf rs t = rs := by
  simp [runTask, h]

theorem runTask_of_miss_none (c : String → String) (s : ArchiveSettings)
    (store : MemoriousStore) (kf : Metadata → Option String) (rs : RunState)
    (t : String) (h : get_cache_key c s rs.ds.name store.uri t ∉ rs.cache)
    (hb : handle_task_body store kf rs.ds rs.st t = none) :
    runTask c s store kf rs t = rs := by
  simp [runTask, h, hb]

theorem runTask_of_miss_some (c : String → String) (s : ArchiveSettings)
    (store : MemoriousStore) (kf : Metadata → Option String) (rs : RunState)
    (t : String) (ds1 : DatasetState) (st1 : MemoriousStatus)
    (h : get_cache_key c s rs.ds.name store.uri t ∉ rs.cache)
    (hb : handle_task_body store kf rs.ds rs.st t = some (ds1, st1)) :
    runTask c s store kf rs t =
      { ds := ds1, st := st1,
        cache := get_cache_key c s rs.ds.name store.uri t :: rs.cache } := by
  simp [runTask, h, hb]

theorem runTask_ds_name (c : String → String) (s : ArchiveSettings)
    (store : MemoriousStore) (kf : Metadata → Option String) (rs : RunState)
    (t : String) : (runTask c s store kf rs t).ds.name = rs.ds.name := by
  by_cases h : get_cache_key c s rs.ds.name store.uri t ∈ rs.cache
  · rw [runTask_of_hit c s store kf rs t h]
  · cases hb : handle_task_body store kf rs.ds rs.st t with
    | none => rw [runTask_of_miss_none c s store kf rs t h hb]
    | some p =>
      obtain ⟨ds1, st1⟩ := p
      rw [runTask_of_miss_some c s store kf rs t ds1 st1 h hb]
      exact handle_task_body_name store kf rs.ds ds1 rs.st st1 t hb

theorem runTask_cache_mono (c : String → String) (s : ArchiveSettings)
    (store : MemoriousStore) (kf : Metadata → Option String) (rs : RunState)
    (t : String) : rs.cache ⊆ (runTask c s store kf rs t).cache := by
  by_cases h : get_cache_key c s rs.ds.name store.uri t ∈ rs.cache
  · rw [runTask_of_hit c s store kf rs t h]
    exact fun x hx => hx
  · cases hb : handle_task_body store kf rs.ds rs.st t with
    | none =>
      rw [runTask_of_miss_none c s store kf rs t h hb]
      exact fun x hx => hx
    | some p =>
      obtain ⟨ds1, st1⟩ := p
      rw [runTask_of_miss_some c s store kf rs t ds1 st1 h hb]
      exact fun x hx => List.mem_cons_of_mem _ hx

/-! Whole-run lemmas. -/

theorem runTasks_ds_name (c : String → String) (s : ArchiveSettings)
    (store : MemoriousStore) (kf : Metadata → Option String) :
    ∀ (l : List String) (rs : RunState),
      (runTasks c s store kf l rs).ds.name = rs.ds.name := by
  intro l
  induction l with
  | nil => intro rs; rfl
  | cons t0 ts ih =>
    intro rs
    simp only [runTasks]
    rw [ih (runTask c s store kf rs t0), runTask_ds_name]

theorem runTasks_cache_mono (c : String → String) (s : ArchiveSettings)
    (store : MemoriousStore) (kf : Metadata → Option String) :
    ∀ (l : List String) (rs : RunState),
      rs.cache ⊆ (runTasks c s store kf l rs).cache := by
  intro l
  induction l with
  | nil => intro rs; exact fun x hx => hx
  | cons t0 ts ih =>
    intro rs
    simp only [runTasks]
    exact fun x hx =>
      ih (runTask c s store kf rs t0) (runTask_cache_mono c s store kf rs t0 hx)

/-- After a run, every task is either memoized (its cache key is stored) or a
raising task. -/
theorem runTasks_covers (c : String → String) (s : ArchiveSettings)
    (store : MemoriousStore) (kf : Metadata → Option String) :
    ∀ (l : List String) (rs : RunState), ∀ t ∈ l,
      get_cache_key c s rs.ds.name store.uri t ∈
          (runTasks c s store kf l rs).cache ∨
        taskClass store kf t = .raised := by
  intro l
  induction l with
  | nil => intro rs t ht; cases ht
  | cons t0 ts ih =>
    intro rs t ht
    simp only [runTasks]
    rcases List.mem_cons.mp ht with rfl | hts
    · by_cases hck : get_cache_key c s rs.ds.name store.uri t ∈ rs.cache
      · exact Or.inl (runTasks_cache_mono c s store kf ts _
          (runTask_cache_mono c s store kf rs t hck))
      · cases hb : handle_task_body store kf rs.ds rs.st t with
        | none => exact Or.inr (taskClass_of_body_none store kf rs.ds rs.st t hb)
        | some p =>
          obtain ⟨ds1, st1⟩ := p
          left
          rw [runTask_of_miss_some c s store kf rs t ds1 st1 hck hb]
          exact runTasks_cache_mono c s store kf ts _
            (List.mem_cons_self _ _)
    · have hmem := ih (runTask c s store kf rs t0) t hts
      rwa [runTask_ds_name] at hmem

/-- A run all of whose tasks are memoized or raising changes nothing. -/
theorem runTasks_frozen (c : String → String) (s : ArchiveSettings)
    (store : MemoriousStore) (kf : Metadata → Option String) :
    ∀ (l : List String) (rs : RunState),
      (∀ t ∈ l, get_cache_key c s rs.ds.name store.uri t ∈ rs.cache ∨
        taskClass store kf t = .raised) →
      runTasks c s store kf l rs = rs := by
  intro l
  induction l with
  | nil => intro rs _; rfl
  | cons t0 ts ih =>
    intro rs h
    have hstep : runTask c s store kf rs t0 = rs := by
      rcases h t0 (List.mem_cons_self _ _) with hck | hcl
      · exact runTask_of_hit c s store kf rs t0 hck
      · by_cases hck : get_cache_key c s rs.ds.name store.uri t0 ∈ rs.cache
        · exact runTask_of_hit c s store kf rs t0 hck
        · exact runTask_of_miss_none c s store kf rs t0 hck
            (handle_task_body_of_raised store kf rs.ds rs.st t0 hcl)
    simp only [runTasks, hstep]
    exact ih rs (fun t ht => h t (List.mem_cons_of_mem _ ht))

/-! The cache-free fold: what a run does when none of its tasks hits the
cache (continue-on-error on raising bodies). -/

def runTaskNC (store : MemoriousStore) (kf : Metadata → Option String)
    (p : DatasetState × MemoriousStatus) (t : String) :
    DatasetState × MemoriousStatus :=
  match handle_task_body store kf p.1 p.2 t with
  | none => p
  | some q => q

def runTasksNC (store : MemoriousStore) (kf : Metadata → Option String) :
    List String → DatasetState × MemoriousStatus →
      DatasetState × MemoriousStatus
  | [], p => p
  | t :: ts, p => runTasksNC store kf ts (runTaskNC store kf p t)

/-- A run over distinct tasks none of which is memoized yet is the cache-free
fold (cache keys are injective in the task, so no task can hit a key stored by
an earlier one). -/
theorem runTasks_fresh (c : String → String) (s : ArchiveSettings)
    (store : MemoriousStore) (kf : Metadata → Option String) :
    ∀ (l : List String) (rs : RunState), l.Nodup →
      (∀ t ∈ l, get_cache_key c s rs.ds.name store.uri t ∉ rs.cache) →
      ((runTasks c s store kf l rs).ds, (runTasks c s store kf l rs).st) =
        runTasksNC store kf l (rs.ds, rs.st) := by
  intro l
  induction l with
  | nil => intro rs _ _; rfl
  | cons t0 ts ih =>
    intro rs hnd hfresh
    have hck : get_cache_key c s rs.ds.name store.uri t0 ∉ rs.cache :=
      hfresh t0 (List.mem_cons_self _ _)
    simp only [runTasks, runTasksNC]
    cases hb : handle_task_body store kf rs.ds rs.st t0 with
    | none =>
      rw [runTask_of_miss_none c s store kf rs t0 hck hb]
      have hNC : runTaskNC store kf (rs.ds, rs.st) t0 = (rs.ds, rs.st) := by
        simp [runTaskNC, hb]
      rw [hNC]
      exact ih rs hnd.of_cons
        (fun t ht => hfresh t (List.mem_cons_of_mem _ ht))
    | some p =>
      obtain ⟨ds1, st1⟩ := p
      rw [runTask_of_miss_some c s store kf rs t0 ds1 st1 hck hb]
      have hNC : runTaskNC store kf (rs.ds, rs.st) t0 = (ds1, st1) := by
        simp [runTaskNC, hb]
      rw [hNC]
      have hname : ds1.name = rs.ds.name :=
        handle_task_body_name store kf rs.ds ds1 rs.st st1 t0 hb
      refine ih ⟨ds1, st1,
        get_cache_key c s rs.ds.name store.uri t0 :: rs.cache⟩
        hnd.of_cons ?_
      intro t ht hmem
      have hmem2 : get_cache_key c s ds1.name store.uri t ∈
          get_cache_key c s rs.ds.name store.uri t0 :: rs.cache := hmem
      rw [hname] at hmem2
      rcases List.mem_cons.mp hmem2 with heq | hmem3
      · have ht0 : t = t0 := get_cache_key_inj c s rs.ds.name store.uri heq
        exact (List.nodup_cons.mp hnd).1 (ht0 ▸ ht)
      · exact hfresh t (List.mem_cons_of_mem _ ht) hmem3

/-! Cache-free fold invariants: dataset keys grow, every file task's key is
present afterwards, counters add up. -/

theorem runTaskNC_keys_mono (store : MemoriousStore)
    (kf : Metadata → Option String) (p : DatasetState × MemoriousStatus)
    (t k : String) (hk : p.1.existsKey k = true) :
    (runTaskNC store kf p t).1.existsKey k = true := by
  cases hb : handle_task_body store kf p.1 p.2 t with
  | none => simpa [runTaskNC, hb] using hk
  | some q =>
    obtain ⟨ds1, st1⟩ := q
    simpa [runTaskNC, hb] using
      handle_task_body_keys_mono store kf p.1 ds1 p.2 st1 t k hb hk

theorem runTasksNC_keys_mono (store : MemoriousStore)
    (kf : Metadata → Option String) :
    ∀ (l : List String) (p : DatasetState × MemoriousStatus) (k : String),
      p.1.existsKey k = true →
      (runTasksNC store kf l p).1.existsKey k = true := by
  intro l
  induction l with
  | nil => intro p k hk; exact hk
  | cons t0 ts ih =>
    intro p k hk
    simp only [runTasksNC]
    exact ih (runTaskNC store kf p t0) k (runTaskNC_keys_mono store kf p t0 k hk)

/-- After a cache-free fold, the key of every file task in the list exists in
the dataset. -/
theorem runTasksNC_file_keys (store : MemoriousStore)
    (kf : Metadata → Option String) :
    ∀ (l : List String) (p : DatasetState × MemoriousStatus) (t k : String),
      t ∈ l → taskClass store kf t = .fileKey k →
      (runTasksNC store kf l p).1.existsKey k = true := by
  intro l
  induction l with
  | nil => intro p t k ht; cases ht
  | cons t0 ts ih =>
    intro p t k ht hcl
    simp only [runTasksNC]
    rcases List.mem_cons.mp ht with rfl | hts
    · have hstep : (runTaskNC store kf p t).1.existsKey k = true := by
        rcases handle_task_body_spec store kf p.1 p.2 t with ⟨hc, hb⟩ |
          ⟨hc, hb⟩ | ⟨k2, hc, ⟨hex, hb⟩ | ⟨hex, f, hfk, hb⟩⟩
        · rw [hcl] at hc; cases hc
        · rw [hcl] at hc; cases hc
        · rw [hcl] at hc
          injection hc with hk2
          subst hk2
          simpa [runTaskNC, hb] using hex
        · rw [hcl] at hc
          injection hc with hk2
          subst hk2
          simp [runTaskNC, hb, existsKey_archiveFile, hfk]
      exact runTasksNC_keys_mono store kf ts _ k hstep
    · exact ih _ t k hts hcl

/-- Whether a task yields a File Record (a pure function of store and key
function). -/
def isFileTask (store : MemoriousStore) (kf : Metadata → Option String)
    (t : String) : Bool :=
  match taskClass store kf t with
  | .fileKey _ => true
  | _ => false

/-- One cache-free step adds exactly one to added+skipped on file tasks and
nothing otherwise. -/
theorem runTaskNC_count (store : MemoriousStore)
    (kf : Metadata → Option String) (p : DatasetState × MemoriousStatus)
    (t : String) :
    (runTaskNC store kf p t).2.added + (runTaskNC store kf p t).2.skipped =
      p.2.added + p.2.skipped +
        (if isFileTask store kf t then 1 else 0) := by
  rcases handle_task_body_spec store kf p.1 p.2 t with ⟨hc, hb⟩ | ⟨hc, hb⟩ |
    ⟨k, hc, ⟨hex, hb⟩ | ⟨hex, f, hfk, hb⟩⟩
  · simp [runTaskNC, hb, isFileTask, hc]
  · simp [runTaskNC, hb, isFileTask, hc]
  · simp [runTaskNC, hb, isFileTask, hc]; omega
  · simp [runTaskNC, hb, isFileTask, hc]; omega

/-- Over a whole cache-free fold, added+skipped grows by the number of file
tasks. -/
theorem runTasksNC_count (store : MemoriousStore)
    (kf : Metadata → Option String) :
    ∀ (l : List String) (p : DatasetState × MemoriousStatus),
      (runTasksNC store kf l p).2.added + (runTasksNC store kf l p).2.skipped =
        p.2.added + p.2.skipped + l.countP (isFileTask store kf) := by
  intro l
  induction l with
  | nil => intro p; simp [runTasksNC]
  | cons t0 ts ih =>
    intro p
    simp only [runTasksNC]
    rw [ih, runTaskNC_count, List.countP_cons]
    cases hf : isFileTask store kf t0 <;> simp [hf] <;> omega

/-- A cache-free fold over tasks whose file keys all already exist leaves the
dataset unchanged, adds nothing and skips every file task. -/
theorem runTasksNC_skip_all (store : MemoriousStore)
    (kf : Metadata → Option String) :
    ∀ (l : List String) (p : DatasetState × MemoriousStatus),
      (∀ t ∈ l, ∀ k, taskClass store kf t = .fileKey k →
        p.1.existsKey k = true) →
      (runTasksNC store kf l p).1 = p.1 ∧
      (runTasksNC store kf l p).2.added = p.2.added ∧
      (runTasksNC store kf l p).2.skipped =
        p.2.skipped + l.countP (isFileTask store kf) := by
  intro l
  induction l with
  | nil => intro p _; exact ⟨rfl, rfl, by simp [runTasksNC]⟩
  | cons t0 ts ih =>
    intro p h
    have hstep : (runTaskNC store kf p t0).1 = p.1 ∧
        (runTaskNC store kf p t0).2.added = p.2.added ∧
        (runTaskNC store kf p t0).2.skipped =
          p.2.skipped + (if isFileTask store kf t0 then 1 else 0) := by
      rcases handle_task_body_spec store kf p.1 p.2 t0 with ⟨hc, hb⟩ |
        ⟨hc, hb⟩ | ⟨k, hc, ⟨hex, hb⟩ | ⟨hex, f, hfk, hb⟩⟩
      · exact ⟨by simp [runTaskNC, hb], by simp [runTaskNC, hb],
          by simp [runTaskNC, hb, isFileTask, hc]⟩
      · exact ⟨by simp [runTaskNC, hb], by simp [runTaskNC, hb],
          by simp [runTaskNC, hb, isFileTask, hc]⟩
      · exact ⟨by simp [runTaskNC, hb], by simp [runTaskNC, hb],
          by simp [runTaskNC, hb, isFileTask, hc]⟩
      · have := h t0 (List.mem_cons_self _ _) k hc
        rw [this] at hex
        cases hex
    obtain ⟨h1, h2, h3⟩ := hstep
    obtain ⟨g1, g2, g3⟩ := ih (runTaskNC store kf p t0)
      (fun t ht k hcl => by rw [h1]; exact h t (List.mem_cons_of_mem _ ht) k hcl)
    refine ⟨?_, ?_, ?_⟩
    · simp only [runTasksNC]; rw [g1, h1]
    · simp only [runTasksNC]; rw [g2, h2]
    · simp only [runTasksNC]
      rw [g3, h3, List.countP_cons]
      cases hf : isFileTask store kf t0 <;> simp [hf] <;> omega

/-- C1 fails as stated (see the counterexample): with the persistent
memoization cache the second run's task bodies are cache hits, so its skipped
counter stays 0 instead of matching the first run's added. Amended: a second
run over an unchanged source registers nothing (added = 0); with the persisted
cache the second run leaves the dataset unchanged and all its counters are
zero; with the cache cleared between runs it adds 0 and skips exactly
added₁ + skipped₁ tasks (= added₁ when the first run skipped none). -/
theorem claim_C1_idempotency (c : String → String) (s : ArchiveSettings)
    (store : MemoriousStore) (kf : Metadata → Option String)
    (ds0 : DatasetState) (hnd : store.tasks.Nodup) :
    (runAll c s store kf (runAll c s store kf ds0 []).ds
        (runAll c s store kf ds0 []).cache).st =
      { added := 0, skipped := 0, not_found := 0 } ∧
    (runAll c s store kf (runAll c s store kf ds0 []).ds
        (runAll c s store kf ds0 []).cache).ds =
      (runAll c s store kf ds0 []).ds ∧
    (runAll c s store kf (runAll c s store kf ds0 []).ds []).st.added = 0 ∧
    (runAll c s store kf (runAll c s store kf ds0 []).ds []).st.skipped =
      (runAll c s store kf ds0 []).st.added +
        (runAll c s store kf ds0 []).st.skipped := by
  have hname1 : (runAll c s store kf ds0 []).ds.name = ds0.name :=
    runTasks_ds_name c s store kf store.tasks ⟨ds0, {}, []⟩
  have hcov : ∀ t ∈ store.tasks,
      get_cache_key c s ds0.name store.uri t ∈
        (runAll c s store kf ds0 []).cache ∨
      taskClass store kf t = .raised :=
    runTasks_covers c s store kf store.tasks ⟨ds0, {}, []⟩
  have hfrozen : runTasks c s store kf store.tasks
      ⟨(runAll c s store kf ds0 []).ds, {}, (runAll c s store kf ds0 []).cache⟩ =
      ⟨(runAll c s store kf ds0 []).ds, {}, (runAll c s store kf ds0 []).cache⟩ := by
    apply runTasks_frozen
    intro t ht
    show get_cache_key c s (runAll c s store kf ds0 []).ds.name store.uri t ∈
        (runAll c s store kf ds0 []).cache ∨
      taskClass store kf t = .raised
    rw [hname1]
    exact hcov t ht
  have ha : runAll c s store kf (runAll c s store kf ds0 []).ds
      (runAll c s store kf ds0 []).cache =
      ⟨(runAll c s store kf ds0 []).ds, {},
        (runAll c s store kf ds0 []).cache⟩ := hfrozen
  have hfresh1 : ((runAll c s store kf ds0 []).ds,
      (runAll c s store kf ds0 []).st) =
      runTasksNC store kf store.tasks (ds0, ({} : MemoriousStatus)) :=
    runTasks_fresh c s store kf store.tasks ⟨ds0, {}, []⟩ hnd
      (fun t _ => List.not_mem_nil _)
  have hfresh2 : ((runAll c s store kf (runAll c s store kf ds0 []).ds []).ds,
      (runAll c s store kf (runAll c s store kf ds0 []).ds []).st) =
      runTasksNC store kf store.tasks
        ((runAll c s store kf ds0 []).ds, ({} : MemoriousStatus)) :=
    runTasks_fresh c s store kf store.tasks
      ⟨(runAll c s store kf ds0 []).ds, {}, []⟩ hnd
      (fun t _ => List.not_mem_nil _)
  have hcount1 := runTasksNC_count store kf store.tasks
    (ds0, ({} : MemoriousStatus))
  have hcont : ∀ t ∈ store.tasks, ∀ k, taskClass store kf t = .fileKey k →
      (runAll c s store kf ds0 []).ds.existsKey k = true := by
    intro t ht k hcl
    have h1 := runTasksNC_file_keys store kf store.tasks
      (ds0, ({} : MemoriousStatus)) t k ht hcl
    have e1 : (runAll c s store kf ds0 []).ds =
        (runTasksNC store kf store.tasks (ds0, ({} : MemoriousStatus))).1 :=
      congrArg Prod.fst hfresh1
    rw [e1]
    exact h1
  obtain ⟨hq1, hq2, hq3⟩ := runTasksNC_skip_all store kf store.tasks
    ((runAll c s store kf ds0 []).ds, ({} : MemoriousStatus)) hcont
  have e2st : (runAll c s store kf (runAll c s store kf ds0 []).ds []).st =
      (runTasksNC store kf store.tasks
        ((runAll c s store kf ds0 []).ds, ({} : MemoriousStatus))).2 :=
    congrArg Prod.snd hfresh2
  have e1st : (runAll c s store kf ds0 []).st =
      (runTasksNC store kf store.tasks (ds0, ({} : MemoriousStatus))).2 :=
    congrArg Prod.snd hfresh1
  refine ⟨?_, ?_, ?_, ?_⟩
  · rw [ha]
  · rw [ha]
  · rw [e2st, hq2]
  · rw [e2st, hq3, e1st]
    dsimp only at hcount1 ⊢
    omega

theorem claim_C1_idempotency_witness :
    (runAll (fun u => u) exArchiveSettings exStore get_file_key
        (runAll (fun u => u) exArchiveSettings exStore get_file_key exDs []).ds
        (runAll (fun u => u) exArchiveSettings exStore get_file_key exDs
          []).cache).st =
      { added := 0, skipped := 0, not_found := 0 } ∧
    (runAll (fun u => u) exArchiveSettings exStore get_file_key
        (runAll (fun u => u) exArchiveSettings exStore get_file_key exDs []).ds
        (runAll (fun u => u) exArchiveSettings exStore get_file_key exDs
          []).cache).ds =
      (runAll (fun u => u) exArchiveSettings exStore get_file_key exDs []).ds ∧
    (runAll (fun u => u) exArchiveSettings exStore get_file_key
        (runAll (fun u => u) exArchiveSettings exStore get_file_key exDs []).ds
        []).st.added = 0 ∧
    (runAll (fun u => u) exArchiveSettings exStore get_file_key
        (runAll (fun u => u) exArchiveSettings exStore get_file_key exDs []).ds
        []).st.skipped =
      (runAll (fun u => u) exArchiveSettings exStore get_file_key exDs
        []).st.added +
      (runAll (fun u => u) exArchiveSettings exStore get_file_key exDs
        []).st.skipped :=
  claim_C1_idempotency (fun u => u) exArchiveSettings exStore get_file_key
    exDs (by decide)

/-- C1 counterexample: one complete task over an empty dataset. The first run
adds it (added = 1). The second run, sharing the persistent memoization cache,
hits the cache for the task: added = 0 but also skipped = 0, so the second
run's skipped does not equal the first run's added. -/
theorem claim_C1_counterexample :
    (runAll (fun u => u) exArchiveSettings exStore get_file_key exDs
        []).st.added = 1 ∧
    (runAll (fun u => u) exArchiveSettings exStore get_file_key
        (runAll (fun u => u) exArchiveSettings exStore get_file_key exDs []).ds
        (runAll (fun u => u) exArchiveSettings exStore get_file_key exDs
          []).cache).st.added = 0 ∧
    (runAll (fun u => u) exArchiveSettings exStore get_file_key
        (runAll (fun u => u) exArchiveSettings exStore get_file_key exDs []).ds
        (runAll (fun u => u) exArchiveSettings exStore get_file_key exDs
          []).cache).st.skipped = 0 ∧
    (((runAll (fun u => u) exArchiveSettings exStore get_file_key
        (runAll (fun u => u) exArchiveSettings exStore get_file_key exDs []).ds
        (runAll (fun u => u) exArchiveSettings exStore get_file_key exDs
          []).cache).st.skipped ==
      (runAll (fun u => u) exArchiveSettings exStore get_file_key exDs
        []).st.added) = false) := by
  decide

end FtmDatalake
